import Mathlib

/-!
Verification of the SMTP `MessageParser` core (`src/smtp/src/lib.rs`) of the
`remail` repository, as a shallow embedding in Lean 4.

Modelling conventions:
* A Rust `String` line is modelled as a `List Char` (`RStr`) of Unicode scalar
  values; Rust's byte-indexed operations (`line.len()`, `line[..n]`, `line[n..]`)
  are modelled via the UTF-8 byte size of each character (`Char.utf8Size`),
  including the panic that occurs when a byte index is not a character boundary.
* `str::to_uppercase` is modelled character-wise with `Char.toUpper` (ASCII
  uppercasing).  The parser only compares uppercased slices against the ASCII
  keywords `HELO`, `EHLO`, `MAIL FROM:`, `RCPT TO:` and `DATA`, and no Unicode
  special-case mapping (e.g. U+0131 to I, U+00DF to SS) can make a slice equal
  to one of these keywords in one model but not the other, because those
  mappings change the character count of the slice.
* `str::split_whitespace` uses Rust's `char::is_whitespace` (the Unicode
  White_Space property); `isRustWhitespace` enumerates that property exactly.
* The external crate call `EmailAddress::from_str` (address validation) is an
  oracle parameter `v : RStr → Bool`; a successfully parsed `EmailAddress`
  wraps the validated text verbatim, as the crate's `EmailAddress` does.
* The `BufReader::lines` iterator is modelled as an explicit `List RStr` of
  remaining lines threaded through the step function; I/O read errors are out
  of scope for the claims under verification, so every read either yields a
  line or signals end of input.
-/

/-- A Rust string, as its list of Unicode scalar values. -/
abbrev RStr := List Char

/-- Rust `char::is_whitespace`: the Unicode White_Space property, enumerated
exactly (25 code points). -/
def isRustWhitespace (c : Char) : Bool :=
  (0x9 ≤ c.toNat && c.toNat ≤ 0xD) || c.toNat = 0x20 || c.toNat = 0x85 ||
  c.toNat = 0xA0 || c.toNat = 0x1680 ||
  (0x2000 ≤ c.toNat && c.toNat ≤ 0x200A) ||
  c.toNat = 0x2028 || c.toNat = 0x2029 || c.toNat = 0x202F ||
  c.toNat = 0x205F || c.toNat = 0x3000

/-- Rust `str::len`: the UTF-8 byte length of the string. -/
def byteLen (l : RStr) : Nat := (l.map Char.utf8Size).sum

/-- Splits `l` at UTF-8 byte offset `n`: `some (p, r)` with `l = p ++ r` and
`byteLen p = n` when `n` is a character boundary, `none` otherwise (the case
in which Rust's `line[..n]` / `line[n..]` panic). -/
def takeBytes? : RStr → Nat → Option (RStr × RStr)
  | l, 0 => some ([], l)
  | [], _ + 1 => none
  | c :: cs, n + 1 =>
    if c.utf8Size ≤ n + 1 then
      match takeBytes? cs (n + 1 - c.utf8Size) with
      | some (a, b) => some (c :: a, b)
      | none => none
    else none

/-- Rust `str::to_uppercase`, character-wise (see the module comment on why
this is extensionally faithful for the keyword comparisons performed). -/
def upperStr (l : RStr) : RStr := l.map Char.toUpper

/-- Rust `s.split_whitespace().next().unwrap_or("")`: the first
whitespace-delimited token (empty when the string is empty or all
whitespace). -/
def firstToken (l : RStr) : RStr :=
  (l.dropWhile isRustWhitespace).takeWhile (fun c => !isRustWhitespace c)

/-- Rust `str::strip_prefix(c)` for a single-character pattern. -/
def stripLeadChar (c : Char) : RStr → Option RStr
  | [] => none
  | x :: xs => if x = c then some xs else none

/-- Rust `str::strip_suffix(c)` for a single-character pattern. -/
def stripTailChar (c : Char) (l : RStr) : Option RStr :=
  if l.getLast? = some c then some l.dropLast else none

/-- The address-token extraction applied to the text after the keyword:
`tok.strip_prefix('<').and_then(|s| s.strip_suffix('>')).unwrap_or("")`. -/
def bracketTok (t : RStr) : RStr :=
  ((stripLeadChar '<' t).bind (stripTailChar '>')).getD []

/-- Rust `str::split_once(":")`: splits at the first `:`. -/
def splitOnceColon : RStr → Option (RStr × RStr)
  | [] => none
  | c :: cs =>
    if c = ':' then some ([], cs)
    else match splitOnceColon cs with
      | some (a, b) => some (c :: a, b)
      | none => none

/-- Rust `Vec::join(" ")` on a vector of strings. -/
def joinSpace (xs : List RStr) : RStr := List.intercalate [' '] xs

/-- `NonEmptyVec<T>` from `src/smtp/src/lib.rs`. -/
structure NonEmptyVec (α : Type) where
  head : α
  tail : List α
deriving DecidableEq

/-- `NonEmptyVec::new`. -/
def NonEmptyVec.new {α} (head : α) : NonEmptyVec α := ⟨head, []⟩

/-- `NonEmptyVec::len`. -/
def NonEmptyVec.len {α} (v : NonEmptyVec α) : Nat := 1 + v.tail.length

/-- `NonEmptyVec::push`. -/
def NonEmptyVec.push {α} (v : NonEmptyVec α) (x : α) : NonEmptyVec α :=
  ⟨v.head, v.tail ++ [x]⟩

/-- `NonEmptyVec::into_vec`. -/
def NonEmptyVec.into_vec {α} (v : NonEmptyVec α) : List α := v.head :: v.tail

/-- The `Index<usize>` impl of `NonEmptyVec` (total variant: `none` where the
Rust indexing would panic out of bounds). -/
def NonEmptyVec.get? {α} (v : NonEmptyVec α) : Nat → Option α
  | 0 => some v.head
  | i + 1 => v.tail.get? i

/-- The `email_address` crate's `EmailAddress`: the validated text, verbatim. -/
structure EmailAddress where
  address : RStr
deriving DecidableEq

/-- `EmailAddress::new_unchecked`. -/
def EmailAddress.new_unchecked (s : RStr) : EmailAddress := ⟨s⟩

/-- `EmailAddress::from_str`, with the crate's validation logic abstracted as
the oracle `v`; on success the crate keeps the input text verbatim. -/
def EmailAddress.from_str (v : RStr → Bool) (s : RStr) : Option EmailAddress :=
  if v s then some ⟨s⟩ else none

/-- `MessageParserState` from `src/smtp/src/lib.rs`. -/
inductive MessageParserState
  | Start | Helo | MailFrom | RcptTo | Headers | Body | End | Done
deriving DecidableEq

/-- `MessageParserEvent`.  The Rust `Done(Message {})` payload is the empty
struct `Message`, carried implicitly. -/
inductive MessageParserEvent
  | From (a : Option EmailAddress)
  | To (a : EmailAddress)
  | Header (name value : RStr)
  | Body (lines : List RStr)
  | Done
deriving DecidableEq

/-- `MessageParserError`.  The `email_address::Error` payloads are dropped
(the oracle does not produce them) and the `IO` variant is out of scope (the
line source is a pure list). -/
inductive MessageParserError
  | UnrecognizedCommand (line : RStr)
  | InvalidFromEmailAddress
  | InvalidToEmailAddress
  | UnexpectedEnd
  | UnexpectedDataAfterEnd (line : RStr)
  | InvalidHeader (line : RStr)
deriving DecidableEq

/-- The fields of the Rust `MessageParser` struct other than the `lines`
iterator, which is threaded separately as an explicit list.  The Rust fields
`from` and `to` are named `fromAddr` and `toAddrs` (`from` and `to` are Lean
keywords). -/
structure MessageParser where
  state : MessageParserState
  fromAddr : Option EmailAddress
  toAddrs : NonEmptyVec EmailAddress
  current_header : Option (RStr × NonEmptyVec RStr)
  headers : List (RStr × RStr)
  body : List RStr
deriving DecidableEq

/-- `MessageParser::new` (the non-`lines` fields). -/
def MessageParser.new : MessageParser :=
  { state := .Start
    fromAddr := none
    toAddrs := NonEmptyVec.new (EmailAddress.new_unchecked [])
    current_header := none
    headers := []
    body := [] }

/-- The observable outcome of one `MessageParser::next` call.  `eos` is the
iterator's `None`; `panicked` marks the byte-index slicing panic (`line[..n]`
with `n` not a character boundary). -/
inductive NextOutcome
  | yield (e : MessageParserEvent)
  | fail (e : MessageParserError)
  | eos
  | panicked
deriving DecidableEq

/-- Outcome of the free function `parse_rcpt_to` (`panicked` when the `line[8..]`
slice in it would panic). -/
inductive RcptToResult
  | ok (a : EmailAddress)
  | invalid
  | panicked
deriving DecidableEq

/-- `parse_rcpt_to` from `src/smtp/src/lib.rs`:
`line[8..].split_whitespace().next().unwrap_or("").strip_prefix('<')
.and_then(strip_suffix('>')).unwrap_or("")`, then `EmailAddress::from_str`. -/
def parse_rcpt_to (v : RStr → Bool) (line : RStr) : RcptToResult :=
  match takeBytes? line 8 with
  | none => .panicked
  | some (_, rest) =>
    match EmailAddress.from_str v (bracketTok (firstToken rest)) with
    | some a => .ok a
    | none => .invalid

/-- One call to `<MessageParser as Iterator>::next` (`src/smtp/src/lib.rs`,
`impl Iterator for MessageParser`), on the remaining input lines and the
parser fields.  Returns the observable outcome together with the remaining
lines and updated fields.  The Rust method's tail-recursive `self.next()`
calls (after state transitions that consume a line without emitting) are the
structural recursion on the line list. -/
def nextAux (v : RStr → Bool) : List RStr → MessageParser → NextOutcome × List RStr × MessageParser
  | [], d =>
    match d.state with
    | .End => (.yield .Done, [], d)
    | .Done => (.eos, [], d)
    | _ => (.fail .UnexpectedEnd, [], d)
  | line :: rest, d =>
    match d.state with
    | .Start =>
      if byteLen line < 4 then (.fail (.UnrecognizedCommand line), rest, d)
      else
        match takeBytes? line 4 with
        | none => (.panicked, rest, d)
        | some (p, _) =>
          let u := upperStr p
          if u = "HELO".toList ∨ u = "EHLO".toList then
            nextAux v rest { d with state := .Helo }
          else (.fail (.UnrecognizedCommand u), rest, d)
    | .Helo =>
      if byteLen line < 10 then (.fail (.UnrecognizedCommand line), rest, d)
      else
        match takeBytes? line 10 with
        | none => (.panicked, rest, d)
        | some (p, after) =>
          if upperStr p = "MAIL FROM:".toList then
            let fromTok := bracketTok (firstToken after)
            if fromTok = [] then
              (.yield (.From none), rest, { d with fromAddr := none, state := .MailFrom })
            else
              match EmailAddress.from_str v fromTok with
              | some email =>
                (.yield (.From (some email)), rest,
                  { d with fromAddr := some email, state := .MailFrom })
              | none => (.fail .InvalidFromEmailAddress, rest, d)
          else (.fail (.UnrecognizedCommand line), rest, d)
    | .MailFrom =>
      if byteLen line < 8 then (.fail (.UnrecognizedCommand line), rest, d)
      else
        match takeBytes? line 8 with
        | none => (.panicked, rest, d)
        | some (p, _) =>
          if upperStr p = "RCPT TO:".toList then
            match parse_rcpt_to v line with
            | .ok email =>
              (.yield (.To email), rest,
                { d with toAddrs := { d.toAddrs with head := email }, state := .RcptTo })
            | .invalid => (.fail .InvalidToEmailAddress, rest, d)
            | .panicked => (.panicked, rest, d)
          else (.fail (.UnrecognizedCommand line), rest, d)
    | .RcptTo =>
      if upperStr line = "DATA".toList then
        nextAux v rest { d with state := .Headers }
      else if ("RCPT TO:".toList).isPrefixOf line then
        match parse_rcpt_to v line with
        | .ok email =>
          (.yield (.To email), rest,
            { d with toAddrs := d.toAddrs.push email, state := .RcptTo })
        | .invalid => (.fail .InvalidToEmailAddress, rest, d)
        | .panicked => (.panicked, rest, d)
      else (.fail (.UnrecognizedCommand line), rest, d)
    | .Headers =>
      if line = [] then
        let d1 :=
          match d.current_header with
          | some (name, value) =>
            { d with headers := d.headers ++ [(name, joinSpace value.into_vec)]
                     current_header := none }
          | none => d
        nextAux v rest { d1 with state := .Body }
      else if line.head? = some ' ' ∨ line.head? = some '\t' then
        match d.current_header with
        | some (name, value) =>
          let part := ((stripLeadChar '\t' ((stripLeadChar ' ' line).getD [])).getD [])
          nextAux v rest { d with current_header := some (name, value.push part) }
        | none => (.fail (.InvalidHeader line), rest, d)
      else
        let d1 :=
          match d.current_header with
          | some (name, value) =>
            { d with headers := d.headers ++ [(name, joinSpace value.into_vec)]
                     current_header := none }
          | none => d
        match splitOnceColon line with
        | some (name, remv) =>
          nextAux v rest { d1 with current_header := some (name, NonEmptyVec.new remv) }
        | none =>
          -- `raw_header` is built from `self.current_header`, which the code
          -- just cleared above when it was open; hence only `line` remains.
          let raw :=
            (match d1.current_header with
             | some (name, value) =>
               name ++ (value.into_vec).foldl (fun acc part => acc ++ ' ' :: part) []
             | none => []) ++ line
          (.fail (.InvalidHeader raw), rest, d1)
    | .Body =>
      if line = ['.'] then
        (.yield (.Body d.body), rest, { d with state := .End })
      else
        let line_to_push := (stripLeadChar '.' line).getD line
        nextAux v rest { d with body := d.body ++ [line_to_push] }
    | .End => (.fail (.UnexpectedDataAfterEnd line), rest, d)
    | .Done => (.fail (.UnexpectedDataAfterEnd line), rest, d)

/-- Drives the iterator the way its consumer contract prescribes (spec section 7:
every error is terminal; a `Done` event or end of iteration stops the loop):
repeatedly call `nextAux`, collecting outcomes, stopping after any outcome
other than a non-`Done` event.  `fuel` bounds the number of calls; each
non-terminal call consumes at least one input line, so any
`fuel > lines.length` is unrestrictive. -/
def runP (v : RStr → Bool) : Nat → List RStr → MessageParser → List NextOutcome × MessageParser
  | 0, _, d => ([], d)
  | fuel + 1, lines, d =>
    match (nextAux v lines d).1 with
    | .yield .Done => ([.yield .Done], (nextAux v lines d).2.2)
    | .yield e =>
      (.yield e :: (runP v fuel (nextAux v lines d).2.1 (nextAux v lines d).2.2).1,
       (runP v fuel (nextAux v lines d).2.1 (nextAux v lines d).2.2).2)
    | r1 => ([r1], (nextAux v lines d).2.2)

/-- The full observable event trace of the parser on an input dialog. -/
def runTrace (v : RStr → Bool) (lines : List RStr) : List NextOutcome :=
  (runP v (lines.length + 1) lines MessageParser.new).1


/-- A line is all ASCII-range characters (each occupying one UTF-8 byte). -/
def AsciiOnly (l : RStr) : Prop := ∀ c ∈ l, c.utf8Size = 1

instance (l : RStr) : Decidable (AsciiOnly l) := List.decidableBAll _ l

/-- The Start-state acceptance test: the first 4 bytes exist, lie on a
character boundary, and uppercase to `HELO` or `EHLO`. -/
def heloOk (l : RStr) : Bool :=
  match takeBytes? l 4 with
  | some (p, _) => decide (upperStr p = "HELO".toList) || decide (upperStr p = "EHLO".toList)
  | none => false

/-- The Helo-state `MAIL FROM:` parse, as a partial function: `some f` when
the line is accepted with sender `f` (`none` inside = null sender), `none`
when the state machine would error or panic on it. -/
def mailFromParse (v : RStr → Bool) (l : RStr) : Option (Option EmailAddress) :=
  match takeBytes? l 10 with
  | some (p, after) =>
    if upperStr p = "MAIL FROM:".toList then
      let tok := bracketTok (firstToken after)
      if tok = [] then some none
      else
        match EmailAddress.from_str v tok with
        | some e => some (some e)
        | none => none
    else none
  | none => none

/-- A literally-spelled `RCPT TO:` line carrying an address the oracle
accepts: `some a` when `parse_rcpt_to` succeeds on it. -/
def rcptParse (v : RStr → Bool) (l : RStr) : Option EmailAddress :=
  if ("RCPT TO:".toList).isPrefixOf l then
    match parse_rcpt_to v l with
    | .ok a => some a
    | _ => none
  else none

/-- Dot-unstuffing of one body line: `line.strip_prefix(".")`, keeping the
line when it has no leading dot. -/
def unstuff (l : RStr) : RStr := (stripLeadChar '.' l).getD l

/-- A line opening a header field: non-empty, not a continuation, and
containing a colon. -/
def headerLineA (l : RStr) : Bool :=
  decide (l ≠ []) && decide (l.head? ≠ some ' ') && decide (l.head? ≠ some '\t') &&
    (splitOnceColon l).isSome

/-- A continuation line: starts with a space or a tab. -/
def headerLineB (l : RStr) : Bool :=
  decide (l.head? = some ' ') || decide (l.head? = some '\t')

/-- A well-formed header block: empty, or opened by a header line with every
further line either a header line or a continuation. -/
def headerBlockOk : List RStr → Bool
  | [] => true
  | l :: ls => headerLineA l && ls.all (fun x => headerLineA x || headerLineB x)

theorem byteLen_nil : byteLen [] = 0 := rfl

theorem byteLen_cons (c : Char) (l : RStr) :
    byteLen (c :: l) = c.utf8Size + byteLen l := by
  simp [byteLen]

theorem byteLen_append (a b : RStr) :
    byteLen (a ++ b) = byteLen a + byteLen b := by
  simp [byteLen]

theorem takeBytes?_eq_some {l p r : RStr} {n : Nat}
    (h : takeBytes? l n = some (p, r)) : l = p ++ r ∧ byteLen p = n := by
  induction l generalizing n p r with
  | nil =>
    cases n with
    | zero => simp [takeBytes?] at h; simp [h.1, h.2, byteLen]
    | succ m => simp [takeBytes?] at h
  | cons c cs ih =>
    cases n with
    | zero => simp [takeBytes?] at h; simp [h.1, h.2, byteLen]
    | succ m =>
      simp only [takeBytes?] at h
      split at h
      · rename_i hle
        cases htb : takeBytes? cs (m + 1 - c.utf8Size) with
        | none => rw [htb] at h; simp at h
        | some pr =>
          obtain ⟨a, b⟩ := pr
          rw [htb] at h
          simp only [Option.some.injEq, Prod.mk.injEq] at h
          obtain ⟨h1, h2⟩ := h
          obtain ⟨ha, hb⟩ := ih htb
          subst h1 h2 ha
          constructor
          · simp
          · rw [byteLen_cons]; omega
      · simp at h

theorem takeBytes?_ge {l p r : RStr} {n : Nat}
    (h : takeBytes? l n = some (p, r)) : n ≤ byteLen l := by
  obtain ⟨h1, h2⟩ := takeBytes?_eq_some h
  subst h1
  rw [byteLen_append]
  omega

theorem takeBytes?_append {p : RStr} (r : RStr) (h : AsciiOnly p) :
    takeBytes? (p ++ r) p.length = some (p, r) := by
  induction p with
  | nil => simp [takeBytes?]
  | cons c cs ih =>
    have hc : c.utf8Size = 1 := h c (by simp)
    have hcs : AsciiOnly cs := fun x hx => h x (by simp [hx])
    simp only [List.cons_append, List.length_cons, takeBytes?]
    rw [hc]
    simp [ih hcs]

theorem takeBytes?_ascii {l : RStr} {n : Nat} (h : AsciiOnly l)
    (hn : n ≤ l.length) :
    takeBytes? l n = some (l.take n, l.drop n) := by
  induction n generalizing l with
  | zero => simp [takeBytes?]
  | succ m ih =>
    cases l with
    | nil => simp at hn
    | cons c cs =>
      have hc : c.utf8Size = 1 := h c (by simp)
      have hcs : AsciiOnly cs := fun x hx => h x (by simp [hx])
      simp only [takeBytes?]
      rw [hc]
      simp only [List.length_cons] at hn
      simp [ih hcs (by omega)]

theorem byteLen_ascii {l : RStr} (h : AsciiOnly l) : byteLen l = l.length := by
  induction l with
  | nil => rfl
  | cons c cs ih =>
    rw [byteLen_cons, h c (by simp), ih (fun x hx => h x (by simp [hx]))]
    simp [Nat.add_comm]

theorem upperStr_length (l : RStr) : (upperStr l).length = l.length := by
  simp [upperStr]

theorem splitOnceColon_name_ne_nil {l n r : RStr}
    (hl : l.head? ≠ some ':') (h : splitOnceColon l = some (n, r)) : n ≠ [] := by
  cases l with
  | nil => simp [splitOnceColon] at h
  | cons c cs =>
    simp only [splitOnceColon] at h
    by_cases hc : c = ':'
    · subst hc; simp at hl
    · rw [if_neg hc] at h
      cases hsc : splitOnceColon cs with
      | none => rw [hsc] at h; simp at h
      | some pr =>
        obtain ⟨a, b⟩ := pr
        rw [hsc] at h
        simp only [Option.some.injEq, Prod.mk.injEq] at h
        obtain ⟨h1, _⟩ := h
        subst h1
        simp

theorem step_start {v : RStr → Bool} {line : RStr} (rest : List RStr)
    (h : heloOk line = true) (f : Option EmailAddress) (t : NonEmptyVec EmailAddress)
    (ch : Option (RStr × NonEmptyVec RStr)) (hs : List (RStr × RStr)) (bd : List RStr) :
    nextAux v (line :: rest) ⟨.Start, f, t, ch, hs, bd⟩ =
      nextAux v rest ⟨.Helo, f, t, ch, hs, bd⟩ := by
  unfold heloOk at h
  cases htb : takeBytes? line 4 with
  | none => rw [htb] at h; simp at h
  | some pr =>
    obtain ⟨p, r⟩ := pr
    rw [htb] at h
    simp only [Bool.or_eq_true, decide_eq_true_eq] at h
    have hge := takeBytes?_ge htb
    simp only [nextAux, htb]
    rw [if_neg (show ¬ byteLen line < 4 by omega), if_pos h]

theorem step_helo {v : RStr → Bool} {line : RStr} {fr : Option EmailAddress}
    (rest : List RStr) (h : mailFromParse v line = some fr)
    {f : Option EmailAddress} {t : NonEmptyVec EmailAddress}
    {ch : Option (RStr × NonEmptyVec RStr)} {hs : List (RStr × RStr)} {bd : List RStr} :
    nextAux v (line :: rest) ⟨.Helo, f, t, ch, hs, bd⟩ =
      (.yield (.From fr), rest, ⟨.MailFrom, fr, t, ch, hs, bd⟩) := by
  unfold mailFromParse at h
  cases htb : takeBytes? line 10 with
  | none => rw [htb] at h; simp at h
  | some pr =>
    obtain ⟨p, after⟩ := pr
    rw [htb] at h
    have hge := takeBytes?_ge htb
    simp only at h
    by_cases hmf : upperStr p = "MAIL FROM:".toList
    · rw [if_pos hmf] at h
      simp only [nextAux, htb]
      rw [if_neg (show ¬ byteLen line < 10 by omega), if_pos hmf]
      by_cases hemp : bracketTok (firstToken after) = []
      · simp only [hemp, if_pos rfl] at h ⊢
        obtain rfl : fr = none := by simpa using h.symm
        simp
      · rw [if_neg hemp] at h ⊢
        cases hfs : EmailAddress.from_str v (bracketTok (firstToken after)) with
        | none => rw [hfs] at h; simp at h
        | some e =>
          rw [hfs] at h
          obtain rfl : fr = some e := by simpa using h.symm
          simp [hfs]
    · rw [if_neg hmf] at h; simp at h

theorem rcptParse_parts {v : RStr → Bool} {line : RStr} {a : EmailAddress}
    (h : rcptParse v line = some a) :
    ∃ tl, line = "RCPT TO:".toList ++ tl ∧ parse_rcpt_to v line = .ok a := by
  unfold rcptParse at h
  by_cases hpre : ("RCPT TO:".toList).isPrefixOf line
  · rw [if_pos hpre] at h
    rw [ List.isPrefixOf_iff_prefix] at hpre
    obtain ⟨tl, htl⟩ := hpre
    refine ⟨tl, htl.symm, ?_⟩
    cases hp : parse_rcpt_to v line with
    | ok b => rw [hp] at h; simp only [Option.some.injEq] at h; subst h; rfl
    | invalid => rw [hp] at h; simp at h
    | panicked => rw [hp] at h; simp at h
  · rw [if_neg hpre] at h; simp at h

theorem step_mailfrom {v : RStr → Bool} {line : RStr} {a : EmailAddress}
    (rest : List RStr) (h : rcptParse v line = some a)
    {f : Option EmailAddress} {t : NonEmptyVec EmailAddress}
    {ch : Option (RStr × NonEmptyVec RStr)} {hs : List (RStr × RStr)} {bd : List RStr} :
    nextAux v (line :: rest) ⟨.MailFrom, f, t, ch, hs, bd⟩ =
      (.yield (.To a), rest, ⟨.RcptTo, f, ⟨a, t.tail⟩, ch, hs, bd⟩) := by
  obtain ⟨tl, htl, hok⟩ := rcptParse_parts h
  have hascii : AsciiOnly ("RCPT TO:".toList) := by decide
  have htb : takeBytes? line 8 = some ("RCPT TO:".toList, tl) := by
    rw [htl]
    have := takeBytes?_append tl hascii
    simpa using this
  have hlen : ¬ byteLen line < 8 := by
    have := takeBytes?_ge htb
    omega
  simp only [nextAux, htb, hok]
  rw [if_neg hlen, if_pos (show upperStr "RCPT TO:".toList = "RCPT TO:".toList by decide)]

theorem step_rcpt_more {v : RStr → Bool} {line : RStr} {a : EmailAddress}
    (rest : List RStr) (h : rcptParse v line = some a)
    {f : Option EmailAddress} {t : NonEmptyVec EmailAddress}
    {ch : Option (RStr × NonEmptyVec RStr)} {hs : List (RStr × RStr)} {bd : List RStr} :
    nextAux v (line :: rest) ⟨.RcptTo, f, t, ch, hs, bd⟩ =
      (.yield (.To a), rest, ⟨.RcptTo, f, t.push a, ch, hs, bd⟩) := by
  obtain ⟨tl, htl, hok⟩ := rcptParse_parts h
  have hdata : ¬ upperStr line = "DATA".toList := by
    intro hu
    have h1 : (upperStr line).length = line.length := upperStr_length line
    rw [hu, htl] at *
    simp at h1
  have hpre : ("RCPT TO:".toList).isPrefixOf line := by
    rw [ List.isPrefixOf_iff_prefix, htl]
    exact ⟨tl, rfl⟩
  simp only [nextAux]
  rw [if_neg hdata, if_pos hpre, hok]

theorem step_rcpt_data {v : RStr → Bool} {line : RStr} (rest : List RStr)
    (h : upperStr line = "DATA".toList)
    {f : Option EmailAddress} {t : NonEmptyVec EmailAddress}
    {ch : Option (RStr × NonEmptyVec RStr)} {hs : List (RStr × RStr)} {bd : List RStr} :
    nextAux v (line :: rest) ⟨.RcptTo, f, t, ch, hs, bd⟩ =
      nextAux v rest ⟨.Headers, f, t, ch, hs, bd⟩ := by
  simp only [nextAux]
  rw [if_pos h]

theorem headers_cont {v : RStr → Bool} (hls : List RStr)
    (h : ∀ l ∈ hls, headerLineA l = true ∨ headerLineB l = true) :
    ∀ (rest : List RStr) (f : Option EmailAddress) (t : NonEmptyVec EmailAddress)
      (nm : RStr) (vv : NonEmptyVec RStr) (hs : List (RStr × RStr)) (bd : List RStr),
    ∃ hs1, nextAux v (hls ++ [] :: rest) ⟨.Headers, f, t, some (nm, vv), hs, bd⟩ =
      nextAux v rest ⟨.Body, f, t, none, hs1, bd⟩ := by
  induction hls with
  | nil =>
    intro rest f t nm vv hs bd
    exact ⟨hs ++ [(nm, joinSpace vv.into_vec)], by simp [nextAux]⟩
  | cons l ls ih =>
    intro rest f t nm vv hs bd
    have hmem : ∀ x ∈ ls, headerLineA x = true ∨ headerLineB x = true :=
      fun x hx => h x (by simp [hx])
    by_cases hB : headerLineB l = true
    · simp only [headerLineB, Bool.or_eq_true, decide_eq_true_eq] at hB
      have hne : l ≠ [] := by
        cases l with
        | nil => simp at hB
        | cons c cs => simp
      simp only [List.cons_append, nextAux, if_neg hne, if_pos hB]
      exact ih hmem rest f t nm
        (vv.push ((stripLeadChar '\t' ((stripLeadChar ' ' l).getD [])).getD [])) hs bd
    · have hA : headerLineA l = true := (h l (by simp)).resolve_right hB
      simp only [headerLineA, Bool.and_eq_true, decide_eq_true_eq] at hA
      obtain ⟨⟨⟨hne, hsp⟩, htab⟩, hcol⟩ := hA
      have hBfalse : ¬ (l.head? = some ' ' ∨ l.head? = some '\t') := by
        rintro (h1 | h1)
        · exact hsp h1
        · exact htab h1
      obtain ⟨⟨n2, r2⟩, hsc⟩ := Option.isSome_iff_exists.mp hcol
      simp only [List.cons_append, nextAux, if_neg hne, if_neg hBfalse, hsc]
      exact ih hmem rest f t n2 (NonEmptyVec.new r2)
        (hs ++ [(nm, joinSpace vv.into_vec)]) bd

theorem headers_block {v : RStr → Bool} (hls : List RStr)
    (h : headerBlockOk hls = true) :
    ∀ (rest : List RStr) (f : Option EmailAddress) (t : NonEmptyVec EmailAddress)
      (hs : List (RStr × RStr)) (bd : List RStr),
    ∃ hs1, nextAux v (hls ++ [] :: rest) ⟨.Headers, f, t, none, hs, bd⟩ =
      nextAux v rest ⟨.Body, f, t, none, hs1, bd⟩ := by
  cases hls with
  | nil =>
    intro rest f t hs bd
    exact ⟨hs, by simp [nextAux]⟩
  | cons l ls =>
    intro rest f t hs bd
    simp only [headerBlockOk, Bool.and_eq_true, List.all_eq_true, Bool.or_eq_true] at h
    obtain ⟨hA, hall⟩ := h
    simp only [headerLineA, Bool.and_eq_true, decide_eq_true_eq] at hA
    obtain ⟨⟨⟨hne, hsp⟩, htab⟩, hcol⟩ := hA
    have hBfalse : ¬ (l.head? = some ' ' ∨ l.head? = some '\t') := by
      rintro (h1 | h1)
      · exact hsp h1
      · exact htab h1
    obtain ⟨⟨n2, r2⟩, hsc⟩ := Option.isSome_iff_exists.mp hcol
    simp only [List.cons_append, nextAux, if_neg hne, if_neg hBfalse, hsc]
    exact headers_cont ls (fun x hx => hall x hx) rest f t n2 (NonEmptyVec.new r2) hs bd

theorem body_block {v : RStr → Bool} (bls : List RStr)
    (h : ∀ l ∈ bls, l ≠ ['.']) :
    ∀ (rest : List RStr) (f : Option EmailAddress) (t : NonEmptyVec EmailAddress)
      (ch : Option (RStr × NonEmptyVec RStr)) (hs : List (RStr × RStr)) (bd : List RStr),
    nextAux v (bls ++ ['.'] :: rest) ⟨.Body, f, t, ch, hs, bd⟩ =
      (.yield (.Body (bd ++ bls.map unstuff)), rest,
        ⟨.End, f, t, ch, hs, bd ++ bls.map unstuff⟩) := by
  induction bls with
  | nil =>
    intro rest f t ch hs bd
    simp [nextAux]
  | cons l ls ih =>
    intro rest f t ch hs bd
    have hne : l ≠ ['.'] := h l (by simp)
    simp only [List.cons_append, nextAux, if_neg hne, List.append_eq]
    rw [ih (fun x hx => h x (by simp [hx]))]
    simp [unstuff]

theorem runP_rcpts {v : RStr → Bool} {rs : List RStr} {as_ : List EmailAddress}
    (hF : List.Forall₂ (fun l a => rcptParse v l = some a) rs as_) :
    ∀ (n : Nat) (X : List RStr) (f : Option EmailAddress) (th : EmailAddress)
      (tt : List EmailAddress)
      (ch : Option (RStr × NonEmptyVec RStr)) (hs : List (RStr × RStr)) (bd : List RStr),
    runP v (n + rs.length) (rs ++ X) ⟨.RcptTo, f, ⟨th, tt⟩, ch, hs, bd⟩ =
      ((as_.map fun a => NextOutcome.yield (.To a)) ++
        (runP v n X ⟨.RcptTo, f, ⟨th, tt ++ as_⟩, ch, hs, bd⟩).1,
       (runP v n X ⟨.RcptTo, f, ⟨th, tt ++ as_⟩, ch, hs, bd⟩).2) := by
  induction hF with
  | nil =>
    intro n X f th tt ch hs bd
    simp
  | cons hr hF2 ih =>
    rename_i l a rs2 as2
    intro n X f th tt ch hs bd
    simp only [List.length_cons]
    rw [show n + (rs2.length + 1) = (n + rs2.length) + 1 from rfl]
    simp only [List.cons_append, runP, step_rcpt_more (rs2 ++ X) hr, NonEmptyVec.push]
    rw [ih n X f th (tt ++ [a]) ch hs bd]
    simp

theorem nextAux_end (v : RStr → Bool) {d : MessageParser} (hst : d.state = .End) :
    nextAux v [] d = (.yield .Done, [], d) := by
  obtain ⟨st, f, t, ch, hs, bd⟩ := d
  simp only at hst
  subst hst
  rfl

theorem runP_fst_cons {v : RStr → Bool} {lines rest : List RStr}
    {d d1 : MessageParser} {e : MessageParserEvent} (fuel : Nat)
    (hstep : nextAux v lines d = (.yield e, rest, d1)) (he : e ≠ .Done) :
    (runP v (fuel + 1) lines d).1 = .yield e :: (runP v fuel rest d1).1 := by
  simp only [runP, hstep]

theorem runP_snd_cons {v : RStr → Bool} {lines rest : List RStr}
    {d d1 : MessageParser} {e : MessageParserEvent} (fuel : Nat)
    (hstep : nextAux v lines d = (.yield e, rest, d1)) (he : e ≠ .Done) :
    (runP v (fuel + 1) lines d).2 = (runP v fuel rest d1).2 := by
  simp only [runP, hstep]

theorem runP_fst_done {v : RStr → Bool} {lines rest : List RStr}
    {d d1 : MessageParser} (fuel : Nat)
    (hstep : nextAux v lines d = (.yield .Done, rest, d1)) :
    (runP v (fuel + 1) lines d).1 = [.yield .Done] := by
  simp only [runP, hstep]

theorem runP_snd_done {v : RStr → Bool} {lines rest : List RStr}
    {d d1 : MessageParser} (fuel : Nat)
    (hstep : nextAux v lines d = (.yield .Done, rest, d1)) :
    (runP v (fuel + 1) lines d).2 = d1 := by
  simp only [runP, hstep]

theorem runP_fst_term {v : RStr → Bool} {lines rest : List RStr}
    {d d1 : MessageParser} {r : NextOutcome} (fuel : Nat)
    (hstep : nextAux v lines d = (r, rest, d1)) (hr : ∀ e, r ≠ .yield e) :
    (runP v (fuel + 1) lines d).1 = [r] := by
  simp only [runP, hstep]
  cases r with
  | yield e => exact absurd rfl (hr e)
  | fail e => rfl
  | eos => rfl
  | panicked => rfl

theorem runP_snd_term {v : RStr → Bool} {lines rest : List RStr}
    {d d1 : MessageParser} {r : NextOutcome} (fuel : Nat)
    (hstep : nextAux v lines d = (r, rest, d1)) (hr : ∀ e, r ≠ .yield e) :
    (runP v (fuel + 1) lines d).2 = d1 := by
  simp only [runP, hstep]
  cases r with
  | yield e => exact absurd rfl (hr e)
  | fail e => rfl
  | eos => rfl
  | panicked => rfl

/-- C1: for every well-formed dialog — an accepted `HELO`/`EHLO` line, a
`MAIL FROM:` line carrying a valid or null sender, one or more `RCPT TO:`
lines with valid addresses, `DATA`, zero or more header lines, an empty line,
body lines, and the lone-dot terminator, followed by end of input — the
`MessageParser` iterator yields exactly one `From` event, one `To` event per
`RCPT TO:` line in submission order, zero `Header` events (vacuously "zero or
more"), exactly one `Body` event, and then a `Done` event, with no error in
the sequence. -/
theorem c1_wellformed_dialog_events
    (v : RStr → Bool) (helo mfLine rcpt0 dataLine : RStr)
    (rcpts hls bls : List RStr)
    (fr : Option EmailAddress) (a0 : EmailAddress) (as_ : List EmailAddress)
    (hh : heloOk helo = true)
    (hm : mailFromParse v mfLine = some fr)
    (h0 : rcptParse v rcpt0 = some a0)
    (hrs : List.Forall₂ (fun l a => rcptParse v l = some a) rcpts as_)
    (hd : upperStr dataLine = "DATA".toList)
    (hhl : headerBlockOk hls = true)
    (hbl : ∀ l ∈ bls, l ≠ ['.']) :
    runTrace v
        (helo :: mfLine :: rcpt0 :: (rcpts ++ dataLine :: (hls ++ [] :: (bls ++ [['.']])))) =
      .yield (.From fr) :: .yield (.To a0) ::
        (as_.map fun a => NextOutcome.yield (.To a)) ++
          [.yield (.Body (bls.map unstuff)), .yield .Done] := by
  have hlen :
      (helo :: mfLine :: rcpt0 ::
        (rcpts ++ dataLine :: (hls ++ [] :: (bls ++ [['.']])))).length + 1
      = (((hls.length + bls.length + 5) + rcpts.length) + 1) + 1 := by
    simp [List.length_append]
    omega
  obtain ⟨hs1, hhb⟩ :=
    headers_block (v := v) hls hhl (bls ++ [['.']]) fr ⟨a0, as_⟩ [] []
  unfold runTrace
  rw [hlen,
    show MessageParser.new = (⟨.Start, none, ⟨⟨[]⟩, []⟩, none, [], []⟩ : MessageParser) from rfl]
  rw [runP_fst_cons _ (by rw [step_start _ hh]; exact step_helo _ hm) (by simp)]
  rw [runP_fst_cons _ (step_mailfrom _ h0) (by simp)]
  show _ :: _ ::
      (runP v ((hls.length + bls.length + 5) + rcpts.length)
        (rcpts ++ dataLine :: (hls ++ [] :: (bls ++ [['.']])))
        ⟨.RcptTo, fr, ⟨a0, []⟩, none, [], []⟩).1 = _
  rw [runP_rcpts hrs]
  simp only [List.nil_append]
  rw [show hls.length + bls.length + 5 = (hls.length + bls.length + 4) + 1 from by omega]
  rw [runP_fst_cons _
    (by rw [step_rcpt_data _ hd, hhb]
        exact body_block bls hbl [] fr ⟨a0, as_⟩ none hs1 []) (by simp)]
  rw [show hls.length + bls.length + 4 = (hls.length + bls.length + 3) + 1 from by omega]
  rw [runP_fst_done _ (nextAux_end v rfl)]
  simp

theorem mailFromParse_null {v : RStr → Bool} {l p after : RStr}
    (h1 : takeBytes? l 10 = some (p, after))
    (h2 : upperStr p = "MAIL FROM:".toList)
    (h3 : bracketTok (firstToken after) = []) :
    mailFromParse v l = some none := by
  unfold mailFromParse
  rw [h1]
  simp [h2, h3]

theorem mailFromParse_addr {v : RStr → Bool} {l p after tok : RStr}
    (h1 : takeBytes? l 10 = some (p, after))
    (h2 : upperStr p = "MAIL FROM:".toList)
    (h3 : bracketTok (firstToken after) = tok)
    (h4 : tok ≠ [])
    (h5 : v tok = true) :
    mailFromParse v l = some (some ⟨tok⟩) := by
  unfold mailFromParse
  rw [h1]
  simp [h2, h3, h4, EmailAddress.from_str, h5]

/-- C3: a MAIL FROM line whose address token is the empty bracket pair `<>`
(with or without a space after the colon) is accepted as a null sender: after
the HELO line, the parser yields `From none` and reports no error for that
line. -/
theorem c3_null_sender_accepted
    (v : RStr → Bool) (helo mf p after : RStr) (rest : List RStr)
    (hh : heloOk helo = true)
    (h1 : takeBytes? mf 10 = some (p, after))
    (h2 : upperStr p = "MAIL FROM:".toList)
    (h3 : firstToken after = ['<', '>']) :
    runP v 1 (helo :: mf :: rest) MessageParser.new =
      ([.yield (.From none)],
       ⟨.MailFrom, none, ⟨⟨[]⟩, []⟩, none, [], []⟩) := by
  have hm : mailFromParse v mf = some none :=
    mailFromParse_null h1 h2 (by rw [h3]; decide)
  have hstep : nextAux v (helo :: mf :: rest)
      (⟨.Start, none, ⟨⟨[]⟩, []⟩, none, [], []⟩ : MessageParser) =
      (.yield (.From none), rest, ⟨.MailFrom, none, ⟨⟨[]⟩, []⟩, none, [], []⟩) := by
    rw [step_start _ hh]
    exact step_helo _ hm
  rw [show MessageParser.new = (⟨.Start, none, ⟨⟨[]⟩, []⟩, none, [], []⟩ : MessageParser) from rfl,
    show (1 : Nat) = 0 + 1 from rfl]
  simp only [runP, hstep]

/-- C4: after HELO and an accepted MAIL FROM, two sequential valid `RCPT TO:`
lines yield two `To` events in submission order; the state machine is still
in the recipient-accepting state after the second line, and the recipient
collection has length 2 with the first recipient at position 0. -/
theorem c4_two_recipients
    (v : RStr → Bool) (helo mf r1 r2 : RStr) (rest : List RStr)
    (fr : Option EmailAddress) (a1 a2 : EmailAddress)
    (hh : heloOk helo = true)
    (hm : mailFromParse v mf = some fr)
    (hr1 : rcptParse v r1 = some a1)
    (hr2 : rcptParse v r2 = some a2) :
    (runP v 3 (helo :: mf :: r1 :: r2 :: rest) MessageParser.new).1 =
        [.yield (.From fr), .yield (.To a1), .yield (.To a2)] ∧
      (runP v 3 (helo :: mf :: r1 :: r2 :: rest) MessageParser.new).2.state = .RcptTo ∧
      (runP v 3 (helo :: mf :: r1 :: r2 :: rest) MessageParser.new).2.toAddrs.len = 2 ∧
      (runP v 3 (helo :: mf :: r1 :: r2 :: rest) MessageParser.new).2.toAddrs.get? 0 = some a1 ∧
      (runP v 3 (helo :: mf :: r1 :: r2 :: rest) MessageParser.new).2.toAddrs.into_vec = [a1, a2] := by
  have h1 : nextAux v (helo :: mf :: r1 :: r2 :: rest)
      (⟨.Start, none, ⟨⟨[]⟩, []⟩, none, [], []⟩ : MessageParser) =
      (.yield (.From fr), r1 :: r2 :: rest, ⟨.MailFrom, fr, ⟨⟨[]⟩, []⟩, none, [], []⟩) := by
    rw [step_start _ hh]
    exact step_helo _ hm
  have h2 : nextAux v (r1 :: r2 :: rest)
      (⟨.MailFrom, fr, ⟨⟨[]⟩, []⟩, none, [], []⟩ : MessageParser) =
      (.yield (.To a1), r2 :: rest, ⟨.RcptTo, fr, ⟨a1, []⟩, none, [], []⟩) :=
    step_mailfrom _ hr1
  have h3 : nextAux v (r2 :: rest)
      (⟨.RcptTo, fr, ⟨a1, []⟩, none, [], []⟩ : MessageParser) =
      (.yield (.To a2), rest, ⟨.RcptTo, fr, ⟨a1, [a2]⟩, none, [], []⟩) :=
    step_rcpt_more _ hr2
  have hrun : runP v 3 (helo :: mf :: r1 :: r2 :: rest) MessageParser.new =
      ([.yield (.From fr), .yield (.To a1), .yield (.To a2)],
       ⟨.RcptTo, fr, ⟨a1, [a2]⟩, none, [], []⟩) := by
    rw [show MessageParser.new = (⟨.Start, none, ⟨⟨[]⟩, []⟩, none, [], []⟩ : MessageParser) from rfl,
      show (3 : Nat) = 0 + 1 + 1 + 1 from rfl]
    simp only [runP, h1, h2, h3]
  rw [hrun]
  refine ⟨rfl, rfl, rfl, rfl, rfl⟩

/-- C6: in the body phase, a line beginning with `.` that is not exactly `.`
is buffered with precisely one leading dot removed (`..foo` is stored as
`.foo`), and the line that is exactly `.` is never buffered — it always ends
data collection, emitting the `Body` event with the body unchanged. -/
theorem c6_dot_unstuffing
    (v : RStr → Bool) (rest : List RStr) (f : Option EmailAddress)
    (tv : NonEmptyVec EmailAddress) (ch : Option (RStr × NonEmptyVec RStr))
    (hs : List (RStr × RStr)) (bd : List RStr) :
    (∀ t : RStr, t ≠ [] →
      nextAux v (('.' :: t) :: rest) ⟨.Body, f, tv, ch, hs, bd⟩ =
        nextAux v rest ⟨.Body, f, tv, ch, hs, bd ++ [t]⟩) ∧
    nextAux v (['.'] :: rest) ⟨.Body, f, tv, ch, hs, bd⟩ =
      (.yield (.Body bd), rest, ⟨.End, f, tv, ch, hs, bd⟩) := by
  constructor
  · intro t ht
    have hne : ('.' :: t) ≠ ['.'] := by simpa using ht
    simp [nextAux, hne, stripLeadChar]
  · simp [nextAux]

/-- C7: address extraction is insensitive to optional spacing, optional angle
brackets around the token, and trailing parameters — the three lines
`MAIL FROM: <a@b.com>`, `MAIL FROM:<a@b.com>` and
`MAIL FROM: <a@b.com> ignored=1` all parse to the identical Mailbox
`a@b.com`, yielding identical `From` events. -/
theorem c7_bracket_stripping_insensitive
    (v : RStr → Bool) (rest : List RStr) (f : Option EmailAddress)
    (tv : NonEmptyVec EmailAddress) (ch : Option (RStr × NonEmptyVec RStr))
    (hs : List (RStr × RStr)) (bd : List RStr)
    (hv : v ("a@b.com".toList) = true) :
    nextAux v ("MAIL FROM: <a@b.com>".toList :: rest) ⟨.Helo, f, tv, ch, hs, bd⟩ =
      (.yield (.From (some ⟨"a@b.com".toList⟩)), rest,
        ⟨.MailFrom, some ⟨"a@b.com".toList⟩, tv, ch, hs, bd⟩) ∧
    nextAux v ("MAIL FROM:<a@b.com>".toList :: rest) ⟨.Helo, f, tv, ch, hs, bd⟩ =
      (.yield (.From (some ⟨"a@b.com".toList⟩)), rest,
        ⟨.MailFrom, some ⟨"a@b.com".toList⟩, tv, ch, hs, bd⟩) ∧
    nextAux v ("MAIL FROM: <a@b.com> ignored=1".toList :: rest) ⟨.Helo, f, tv, ch, hs, bd⟩ =
      (.yield (.From (some ⟨"a@b.com".toList⟩)), rest,
        ⟨.MailFrom, some ⟨"a@b.com".toList⟩, tv, ch, hs, bd⟩) := by
  have hm1 : mailFromParse v ("MAIL FROM: <a@b.com>".toList) = some (some ⟨"a@b.com".toList⟩) :=
    @mailFromParse_addr v _ ("MAIL FROM:".toList) (" <a@b.com>".toList) ("a@b.com".toList)
      (by decide) (by decide) (by decide) (by decide) hv
  have hm2 : mailFromParse v ("MAIL FROM:<a@b.com>".toList) = some (some ⟨"a@b.com".toList⟩) :=
    @mailFromParse_addr v _ ("MAIL FROM:".toList) ("<a@b.com>".toList) ("a@b.com".toList)
      (by decide) (by decide) (by decide) (by decide) hv
  have hm3 : mailFromParse v ("MAIL FROM: <a@b.com> ignored=1".toList) = some (some ⟨"a@b.com".toList⟩) :=
    @mailFromParse_addr v _ ("MAIL FROM:".toList) (" <a@b.com> ignored=1".toList) ("a@b.com".toList)
      (by decide) (by decide) (by decide) (by decide) hv
  exact ⟨step_helo _ hm1, step_helo _ hm2, step_helo _ hm3⟩

/-- The header-name invariant on the parser fields: every completed header
entry and any open header has a non-empty name. -/
def headersOk (d : MessageParser) : Prop :=
  (∀ p ∈ d.headers, p.1 ≠ []) ∧
  (∀ nm vv, d.current_header = some (nm, vv) → nm ≠ [])

theorem nextAux_headersOk (v : RStr → Bool) :
    ∀ (lines : List RStr) (d : MessageParser),
    (∀ l ∈ lines, l.head? ≠ some ':') → headersOk d →
    headersOk (nextAux v lines d).2.2 ∧
      ∀ l ∈ (nextAux v lines d).2.1, l ∈ lines := by
  intro lines
  induction lines with
  | nil =>
    intro d h hd
    obtain ⟨st, f, t, ch, hs, bd⟩ := d
    cases st <;> exact ⟨hd, fun l hl => hl⟩
  | cons line rest ih =>
    intro d h hd
    have hrest : ∀ l ∈ rest, l.head? ≠ some ':' := fun l hl => h l (List.mem_cons_of_mem _ hl)
    have hline : line.head? ≠ some ':' := h line (List.mem_cons_self _ _)
    obtain ⟨st, f, t, ch, hs, bd⟩ := d
    obtain ⟨hd1, hd2⟩ := hd
    have hterm : headersOk ⟨st, f, t, ch, hs, bd⟩ ∧ ∀ l ∈ rest, l ∈ line :: rest :=
      ⟨⟨hd1, hd2⟩, fun l hl => List.mem_cons_of_mem _ hl⟩
    cases st with
    | Start =>
      simp only [nextAux]
      split
      · exact hterm
      · split
        · exact hterm
        · split
          · obtain ⟨ha, hb⟩ := ih ⟨.Helo, f, t, ch, hs, bd⟩ hrest ⟨hd1, hd2⟩
            exact ⟨ha, fun l hl => List.mem_cons_of_mem _ (hb l hl)⟩
          · exact hterm
    | Helo =>
      simp only [nextAux]
      split
      · exact hterm
      · split
        · exact hterm
        · split
          · split
            · exact ⟨⟨hd1, hd2⟩, fun l hl => List.mem_cons_of_mem _ hl⟩
            · split
              · exact ⟨⟨hd1, hd2⟩, fun l hl => List.mem_cons_of_mem _ hl⟩
              · exact hterm
          · exact hterm
    | MailFrom =>
      simp only [nextAux]
      split
      · exact hterm
      · split
        · exact hterm
        · split
          · split
            · exact ⟨⟨hd1, hd2⟩, fun l hl => List.mem_cons_of_mem _ hl⟩
            · exact hterm
            · exact hterm
          · exact hterm
    | RcptTo =>
      simp only [nextAux]
      split
      · obtain ⟨ha, hb⟩ := ih ⟨.Headers, f, t, ch, hs, bd⟩ hrest ⟨hd1, hd2⟩
        exact ⟨ha, fun l hl => List.mem_cons_of_mem _ (hb l hl)⟩
      · split
        · split
          · exact ⟨⟨hd1, hd2⟩, fun l hl => List.mem_cons_of_mem _ hl⟩
          · exact hterm
          · exact hterm
        · exact hterm
    | Headers =>
      cases ch with
      | none =>
        simp only [nextAux]
        by_cases hemp : line = []
        · simp only [if_pos hemp]
          obtain ⟨ha, hb⟩ := ih ⟨.Body, f, t, none, hs, bd⟩ hrest
            ⟨hd1, fun _ _ h2 => Option.noConfusion h2⟩
          exact ⟨ha, fun l hl => List.mem_cons_of_mem _ (hb l hl)⟩
        · simp only [if_neg hemp]
          by_cases hws : line.head? = some ' ' ∨ line.head? = some '\t'
          · simp only [if_pos hws]
            exact ⟨⟨hd1, hd2⟩, fun l hl => List.mem_cons_of_mem _ hl⟩
          · simp only [if_neg hws]
            cases hsc : splitOnceColon line with
            | some pr =>
              obtain ⟨nm2, r2⟩ := pr
              have hnm2 : nm2 ≠ [] := splitOnceColon_name_ne_nil hline hsc
              obtain ⟨ha, hb⟩ := ih ⟨.Headers, f, t, some (nm2, NonEmptyVec.new r2), hs, bd⟩ hrest
                ⟨hd1, fun nm3 vv3 h3 => by
                  simp only [Option.some.injEq, Prod.mk.injEq] at h3
                  rw [← h3.1]
                  exact hnm2⟩
              exact ⟨ha, fun l hl => List.mem_cons_of_mem _ (hb l hl)⟩
            | none =>
              exact ⟨⟨hd1, fun _ _ h2 => Option.noConfusion h2⟩,
                fun l hl => List.mem_cons_of_mem _ hl⟩
      | some pr =>
        obtain ⟨nm, vv⟩ := pr
        have hnm : nm ≠ [] := hd2 nm vv rfl
        have hd1' : ∀ p ∈ hs ++ [(nm, joinSpace vv.into_vec)], p.1 ≠ [] := by
          intro p hp
          rcases List.mem_append.mp hp with h1 | h1
          · exact hd1 p h1
          · rw [List.mem_singleton.mp h1]
            exact hnm
        simp only [nextAux]
        by_cases hemp : line = []
        · simp only [if_pos hemp]
          obtain ⟨ha, hb⟩ := ih ⟨.Body, f, t, none, hs ++ [(nm, joinSpace vv.into_vec)], bd⟩
            hrest ⟨hd1', fun _ _ h2 => Option.noConfusion h2⟩
          exact ⟨ha, fun l hl => List.mem_cons_of_mem _ (hb l hl)⟩
        · simp only [if_neg hemp]
          by_cases hws : line.head? = some ' ' ∨ line.head? = some '\t'
          · simp only [if_pos hws]
            obtain ⟨ha, hb⟩ := ih
              ⟨.Headers, f, t,
                some (nm, vv.push ((stripLeadChar '\t' ((stripLeadChar ' ' line).getD [])).getD [])),
                hs, bd⟩ hrest
              ⟨hd1, fun nm3 vv3 h3 => by
                simp only [Option.some.injEq, Prod.mk.injEq] at h3
                rw [← h3.1]
                exact hnm⟩
            exact ⟨ha, fun l hl => List.mem_cons_of_mem _ (hb l hl)⟩
          · simp only [if_neg hws]
            cases hsc : splitOnceColon line with
            | some pr2 =>
              obtain ⟨nm2, r2⟩ := pr2
              have hnm2 : nm2 ≠ [] := splitOnceColon_name_ne_nil hline hsc
              obtain ⟨ha, hb⟩ := ih
                ⟨.Headers, f, t, some (nm2, NonEmptyVec.new r2),
                  hs ++ [(nm, joinSpace vv.into_vec)], bd⟩ hrest
                ⟨hd1', fun nm3 vv3 h3 => by
                  simp only [Option.some.injEq, Prod.mk.injEq] at h3
                  rw [← h3.1]
                  exact hnm2⟩
              exact ⟨ha, fun l hl => List.mem_cons_of_mem _ (hb l hl)⟩
            | none =>
              exact ⟨⟨hd1', fun _ _ h2 => Option.noConfusion h2⟩,
                fun l hl => List.mem_cons_of_mem _ hl⟩
    | Body =>
      simp only [nextAux]
      split
      · exact hterm
      · obtain ⟨ha, hb⟩ :=
          ih ⟨.Body, f, t, ch, hs, bd ++ [(stripLeadChar '.' line).getD line]⟩ hrest ⟨hd1, hd2⟩
        exact ⟨ha, fun l hl => List.mem_cons_of_mem _ (hb l hl)⟩
    | End => exact hterm
    | Done => exact hterm

/-- The concrete validation oracle used in the closed evaluations: accepts
exactly the address `a@b.com`. -/
def vTest : RStr → Bool := fun l => decide (l = "a@b.com".toList)

/-- C5 counterexample: the claim "command keywords are matched
case-insensitively in every state" fails in the recipient-accepting state —
after one accepted `RCPT TO:<a@b.com>`, the additional line
`rcpt to:<a@b.com>` is rejected with an unrecognized-command error instead of
being accepted like its uppercase spelling. -/
theorem c5_counterexample_lowercase_rcpt_rejected :
    runTrace vTest
        ["HELO x".toList, "MAIL FROM:<>".toList,
         "RCPT TO:<a@b.com>".toList, "rcpt to:<a@b.com>".toList] =
      [.yield (.From none), .yield (.To ⟨"a@b.com".toList⟩),
       .fail (.UnrecognizedCommand ("rcpt to:<a@b.com>".toList))] := by decide

/-- C5 (amended): keyword matching is case-insensitive in the Start, Helo and
MailFrom states (so the first `RCPT TO:` line may be spelled in any letter
case, e.g. `rcpt to:<a@b.com>`) and for the `DATA` keyword, and the mailbox
local-part is never case-normalized (the `To` event carries the
bracket-stripped token verbatim); but an additional recipient line in the
recipient-accepting state is matched case-sensitively against `RCPT TO:` and
a lowercase spelling is rejected with an unrecognized-command error. -/
theorem c5_amended_keyword_case
    (v : RStr → Bool) (t : RStr) (a : EmailAddress) (rest : List RStr)
    (f : Option EmailAddress) (tv : NonEmptyVec EmailAddress)
    (ch : Option (RStr × NonEmptyVec RStr)) (hs : List (RStr × RStr)) (bd : List RStr)
    (ha : EmailAddress.from_str v (bracketTok (firstToken t)) = some a) :
    (nextAux v (("rcpt to:".toList ++ t) :: rest) ⟨.MailFrom, f, tv, ch, hs, bd⟩).1 =
        .yield (.To a) ∧
      a.address = bracketTok (firstToken t) ∧
      (nextAux v (("rcpt to:".toList ++ t) :: rest) ⟨.RcptTo, f, tv, ch, hs, bd⟩).1 =
        .fail (.UnrecognizedCommand ("rcpt to:".toList ++ t)) := by
  have haddr : a.address = bracketTok (firstToken t) := by
    unfold EmailAddress.from_str at ha
    split at ha
    · obtain rfl : (⟨bracketTok (firstToken t)⟩ : EmailAddress) = a := by simpa using ha
      rfl
    · simp at ha
  have hpre8 : takeBytes? ("rcpt to:".toList ++ t) 8 = some ("rcpt to:".toList, t) := by
    have h0 := takeBytes?_append t (show AsciiOnly ("rcpt to:".toList) by decide)
    rw [show ("rcpt to:".toList).length = 8 from by decide] at h0
    exact h0
  have hparse : parse_rcpt_to v ("rcpt to:".toList ++ t) = .ok a := by
    simp only [parse_rcpt_to, hpre8, ha]
  have hbne : ¬ byteLen ("rcpt to:".toList ++ t) < 8 := by
    rw [byteLen_append, show byteLen ("rcpt to:".toList) = 8 from by decide]
    omega
  refine ⟨?_, haddr, ?_⟩
  · simp only [nextAux, hpre8, hparse]
    rw [if_neg hbne,
      if_pos (show upperStr ("rcpt to:".toList) = "RCPT TO:".toList from by decide)]
  · have hndata : ¬ upperStr ("rcpt to:".toList ++ t) = "DATA".toList := by
      intro he
      have hlen := upperStr_length ("rcpt to:".toList ++ t)
      rw [he] at hlen
      rw [show ("DATA".toList).length = 4 from by decide, List.length_append,
        show ("rcpt to:".toList).length = 8 from by decide] at hlen
      omega
    have hnpre : ¬ ("RCPT TO:".toList).isPrefixOf ("rcpt to:".toList ++ t) := by
      rw [ List.isPrefixOf_iff_prefix]
      intro hp
      obtain ⟨u, hu⟩ := hp
      rw [show "RCPT TO:".toList = 'R' :: "CPT TO:".toList from by decide,
        show "rcpt to:".toList = 'r' :: "cpt to:".toList from by decide,
        List.cons_append, List.cons_append] at hu
      injection hu with h1 h2
      exact absurd h1 (by decide)
    simp only [nextAux, if_neg hndata, if_neg hnpre]

/-- C9: when the first line is an accepted HELO/EHLO but the next line is a
`RCPT TO:` line (sent before any MAIL FROM), the parser reports an
unrecognized-command error carrying that line, the error ends the trace, and
the event sequence contains no `Done` event.  (Stated for ASCII lines; a
multi-byte character straddling byte offset 10 would instead hit the slicing
panic covered by C10.) -/
theorem c9_rcpt_before_mailfrom
    (v : RStr → Bool) (helo line : RStr) (rest : List RStr)
    (hh : heloOk helo = true)
    (hpre : ("RCPT TO:".toList).isPrefixOf line)
    (hascii : AsciiOnly line) :
    runTrace v (helo :: line :: rest) = [.fail (.UnrecognizedCommand line)] := by
  obtain ⟨u, hu⟩ := List.isPrefixOf_iff_prefix.mp hpre
  have hstep2 : nextAux v (line :: rest)
      (⟨.Helo, none, ⟨⟨[]⟩, []⟩, none, [], []⟩ : MessageParser) =
      (.fail (.UnrecognizedCommand line), rest,
       ⟨.Helo, none, ⟨⟨[]⟩, []⟩, none, [], []⟩) := by
    by_cases hlen : byteLen line < 10
    · simp only [nextAux, if_pos hlen]
    · have hbl : byteLen line = line.length := byteLen_ascii hascii
      have h10 : 10 ≤ line.length := by omega
      have htb := takeBytes?_ascii hascii h10
      have htake : line.take 10 = "RCPT TO:".toList ++ u.take 2 := by
        rw [← hu, List.take_append_eq_append_take,
          show ("RCPT TO:".toList).take 10 = "RCPT TO:".toList from by decide,
          show 10 - ("RCPT TO:".toList).length = 2 from by decide]
      have hup : upperStr ("RCPT TO:".toList ++ u.take 2) =
          "RCPT TO:".toList ++ upperStr (u.take 2) := by
        simp only [upperStr, List.map_append]
        rfl
      have hnm : ¬ upperStr (line.take 10) = "MAIL FROM:".toList := by
        intro he
        rw [htake, hup,
          show "RCPT TO:".toList = 'R' :: "CPT TO:".toList from by decide,
          show "MAIL FROM:".toList = 'M' :: "AIL FROM:".toList from by decide,
          List.cons_append] at he
        injection he with h1 h2
        exact absurd h1 (by decide)
      simp only [nextAux, if_neg hlen, htb, if_neg hnm]
  have hstep1 : nextAux v (helo :: line :: rest)
      (⟨.Start, none, ⟨⟨[]⟩, []⟩, none, [], []⟩ : MessageParser) =
      (.fail (.UnrecognizedCommand line), rest,
       ⟨.Helo, none, ⟨⟨[]⟩, []⟩, none, [], []⟩) := by
    rw [step_start _ hh]
    exact hstep2
  unfold runTrace
  simp only [List.length_cons]
  rw [show MessageParser.new = (⟨.Start, none, ⟨⟨[]⟩, []⟩, none, [], []⟩ : MessageParser) from rfl]
  rw [runP_fst_term _ hstep1 (by intro e; simp)]

theorem runP_headersOk (v : RStr → Bool) :
    ∀ (fuel : Nat) (lines : List RStr) (d : MessageParser),
    (∀ l ∈ lines, l.head? ≠ some ':') → headersOk d →
    headersOk (runP v fuel lines d).2 := by
  intro fuel
  induction fuel with
  | zero => intro lines d h hd; exact hd
  | succ n ih =>
    intro lines d h hd
    obtain ⟨ha, hb⟩ := nextAux_headersOk v lines d h hd
    simp only [runP]
    split
    · exact ha
    · exact ih _ _ (fun l hl => h l (hb l hl)) ha
    · exact ha

/-- C8 counterexample: the claim "no input dialog produces a header field
with an empty name" is false — the dialog with header line `:v` leaves the
transaction's header list holding exactly one entry whose name is the empty
string. -/
theorem c8_counterexample_empty_header_name :
    (runP vTest 8
      ["HELO x".toList, "MAIL FROM:<>".toList, "RCPT TO:<a@b.com>".toList,
       "DATA".toList, ":v".toList, "".toList, ".".toList]
      MessageParser.new).2.headers = [([], ['v'])] := by decide

/-- C8 (amended): every entry appended to the transaction's header list has a
non-empty name, provided no input line begins with a colon (a header line
whose first character is `:` is the one way to produce an empty name). -/
theorem c8_amended_nonempty_names (v : RStr → Bool) (fuel : Nat) (lines : List RStr)
    (h : ∀ l ∈ lines, l.head? ≠ some ':') :
    ∀ p ∈ (runP v fuel lines MessageParser.new).2.headers, p.1 ≠ [] :=
  (runP_headersOk v fuel lines MessageParser.new h
    ⟨fun p hp => absurd hp (List.not_mem_nil p),
     fun _ _ h2 => Option.noConfusion h2⟩).1

/-- C2: the code evaluated at the claim's inputs.  For the header block
`Subject: First` / ` Second` the parser stores the header
`("Subject", " First ")` — the continuation content is lost (the chained
`strip_prefix(" ").unwrap_or_default().strip_prefix("\t").unwrap_or_default()`
collapses `" Second"` to the empty string) and the leading space after the
colon is kept — and no `Header` event is ever emitted; for `Subject:` /
` Test` it stores `("Subject", " ")`.  The claim (and the repository's own
`test_headers`) expects `("Subject", "First Second")` and `("Subject", " Test")`
emitted as `Header` events. -/
theorem c2_header_folding_code_eval :
    (runP vTest 8
        ["HELO x".toList, "MAIL FROM:<>".toList, "RCPT TO:<a@b.com>".toList,
         "DATA".toList, "Subject: First".toList, " Second".toList, "".toList,
         ".".toList] MessageParser.new).1 =
      [.yield (.From none), .yield (.To ⟨"a@b.com".toList⟩),
       .yield (.Body []), .yield .Done] ∧
    (runP vTest 8
        ["HELO x".toList, "MAIL FROM:<>".toList, "RCPT TO:<a@b.com>".toList,
         "DATA".toList, "Subject: First".toList, " Second".toList, "".toList,
         ".".toList] MessageParser.new).2.headers =
      [("Subject".toList, " First ".toList)] ∧
    (runP vTest 8
        ["HELO x".toList, "MAIL FROM:<>".toList, "RCPT TO:<a@b.com>".toList,
         "DATA".toList, "Subject:".toList, " Test".toList, "".toList,
         ".".toList] MessageParser.new).2.headers =
      [("Subject".toList, " ".toList)] := by
  refine ⟨by decide, by decide, by decide⟩

/-- C10: a single parser step is not total in the claimed sense — on the
first line `HELÖ x` (whose `Ö` straddles byte offset 4) the Start state's
`line[..4]` slice falls inside a multi-byte character and the step panics
instead of returning an event or a tagged error. -/
theorem c10_byte_slice_panics :
    (nextAux (fun _ => false) ["HELÖ x".toList] MessageParser.new).1 =
      .panicked := by decide

theorem c1_wellformed_dialog_events_witness :
    runTrace vTest
        ("HELO x".toList :: "MAIL FROM:<a@b.com>".toList :: "RCPT TO:<a@b.com>".toList ::
          (["RCPT TO:<a@b.com>".toList] ++ "DATA".toList ::
            (["Subject: hi".toList] ++ [] ::
              (["x".toList, "..y".toList] ++ [['.']])))) =
      .yield (.From (some ⟨"a@b.com".toList⟩)) :: .yield (.To ⟨"a@b.com".toList⟩) ::
        ([(⟨"a@b.com".toList⟩ : EmailAddress)].map fun a => NextOutcome.yield (.To a)) ++
          [.yield (.Body (["x".toList, "..y".toList].map unstuff)), .yield .Done] :=
  c1_wellformed_dialog_events vTest _ _ _ _ _ _ _ _ _ _
    (by decide) (by decide) (by decide)
    (List.Forall₂.cons (by decide) List.Forall₂.nil)
    (by decide) (by decide) (by decide)

theorem c3_null_sender_accepted_witness :
    runP vTest 1 ["HELO x".toList, "MAIL FROM: <>".toList] MessageParser.new =
      ([.yield (.From none)],
       ⟨.MailFrom, none, ⟨⟨[]⟩, []⟩, none, [], []⟩) :=
  c3_null_sender_accepted vTest ("HELO x".toList) ("MAIL FROM: <>".toList)
    ("MAIL FROM:".toList) (" <>".toList) []
    (by decide) (by decide) (by decide) (by decide)

theorem c4_two_recipients_witness :
    (runP vTest 3
        ["HELO x".toList, "MAIL FROM:<>".toList, "RCPT TO:<a@b.com>".toList,
         "RCPT TO:<a@b.com>".toList] MessageParser.new).1 =
        [.yield (.From none), .yield (.To ⟨"a@b.com".toList⟩),
         .yield (.To ⟨"a@b.com".toList⟩)] ∧
      (runP vTest 3
        ["HELO x".toList, "MAIL FROM:<>".toList, "RCPT TO:<a@b.com>".toList,
         "RCPT TO:<a@b.com>".toList] MessageParser.new).2.state = .RcptTo ∧
      (runP vTest 3
        ["HELO x".toList, "MAIL FROM:<>".toList, "RCPT TO:<a@b.com>".toList,
         "RCPT TO:<a@b.com>".toList] MessageParser.new).2.toAddrs.len = 2 ∧
      (runP vTest 3
        ["HELO x".toList, "MAIL FROM:<>".toList, "RCPT TO:<a@b.com>".toList,
         "RCPT TO:<a@b.com>".toList] MessageParser.new).2.toAddrs.get? 0 =
        some ⟨"a@b.com".toList⟩ ∧
      (runP vTest 3
        ["HELO x".toList, "MAIL FROM:<>".toList, "RCPT TO:<a@b.com>".toList,
         "RCPT TO:<a@b.com>".toList] MessageParser.new).2.toAddrs.into_vec =
        [⟨"a@b.com".toList⟩, ⟨"a@b.com".toList⟩] :=
  c4_two_recipients vTest _ _ _ _ [] none _ _
    (by decide) (by decide) (by decide) (by decide)

theorem c5_amended_keyword_case_witness :
    (nextAux vTest [("rcpt to:".toList ++ "<a@b.com>".toList)]
        ⟨.MailFrom, none, ⟨⟨[]⟩, []⟩, none, [], []⟩).1 =
        .yield (.To ⟨"a@b.com".toList⟩) ∧
      (⟨"a@b.com".toList⟩ : EmailAddress).address =
        bracketTok (firstToken ("<a@b.com>".toList)) ∧
      (nextAux vTest [("rcpt to:".toList ++ "<a@b.com>".toList)]
        ⟨.RcptTo, none, ⟨⟨[]⟩, []⟩, none, [], []⟩).1 =
        .fail (.UnrecognizedCommand ("rcpt to:".toList ++ "<a@b.com>".toList)) :=
  c5_amended_keyword_case vTest ("<a@b.com>".toList) ⟨"a@b.com".toList⟩ []
    none ⟨⟨[]⟩, []⟩ none [] [] (by decide)

theorem c6_dot_unstuffing_witness :
    nextAux vTest [('.' :: ".foo".toList)] ⟨.Body, none, ⟨⟨[]⟩, []⟩, none, [], []⟩ =
        nextAux vTest [] ⟨.Body, none, ⟨⟨[]⟩, []⟩, none, [], [] ++ [".foo".toList]⟩ ∧
      nextAux vTest [['.']] ⟨.Body, none, ⟨⟨[]⟩, []⟩, none, [], []⟩ =
        (.yield (.Body []), [], ⟨.End, none, ⟨⟨[]⟩, []⟩, none, [], []⟩) :=
  ⟨(c6_dot_unstuffing vTest [] none ⟨⟨[]⟩, []⟩ none [] []).1 (".foo".toList) (by decide),
   (c6_dot_unstuffing vTest [] none ⟨⟨[]⟩, []⟩ none [] []).2⟩

theorem c7_bracket_stripping_insensitive_witness :
    nextAux vTest ("MAIL FROM: <a@b.com>".toList :: [])
        ⟨.Helo, none, ⟨⟨[]⟩, []⟩, none, [], []⟩ =
      (.yield (.From (some ⟨"a@b.com".toList⟩)), [],
        ⟨.MailFrom, some ⟨"a@b.com".toList⟩, ⟨⟨[]⟩, []⟩, none, [], []⟩) ∧
    nextAux vTest ("MAIL FROM:<a@b.com>".toList :: [])
        ⟨.Helo, none, ⟨⟨[]⟩, []⟩, none, [], []⟩ =
      (.yield (.From (some ⟨"a@b.com".toList⟩)), [],
        ⟨.MailFrom, some ⟨"a@b.com".toList⟩, ⟨⟨[]⟩, []⟩, none, [], []⟩) ∧
    nextAux vTest ("MAIL FROM: <a@b.com> ignored=1".toList :: [])
        ⟨.Helo, none, ⟨⟨[]⟩, []⟩, none, [], []⟩ =
      (.yield (.From (some ⟨"a@b.com".toList⟩)), [],
        ⟨.MailFrom, some ⟨"a@b.com".toList⟩, ⟨⟨[]⟩, []⟩, none, [], []⟩) :=
  c7_bracket_stripping_insensitive vTest [] none ⟨⟨[]⟩, []⟩ none [] [] (by decide)

theorem c8_amended_nonempty_names_witness :
    ("Subject".toList : RStr) ≠ [] :=
  c8_amended_nonempty_names vTest 8
    ["HELO x".toList, "MAIL FROM:<>".toList, "RCPT TO:<a@b.com>".toList,
     "DATA".toList, "Subject: hi".toList, "".toList, "x".toList, ".".toList]
    (by decide) ("Subject".toList, " hi".toList) (by decide)

theorem c9_rcpt_before_mailfrom_witness :
    runTrace vTest ["HELO x".toList, "RCPT TO:<a@b.com>".toList] =
      [.fail (.UnrecognizedCommand ("RCPT TO:<a@b.com>".toList))] :=
  c9_rcpt_before_mailfrom vTest ("HELO x".toList) ("RCPT TO:<a@b.com>".toList) []
    (by decide) (by decide) (by decide)
